import Mathlib

/-!
Verification of the sound-utils streaming core.

This file gives a shallow embedding of the repository's ring buffer
(`pkg/audiostream/ringbuffer.go`) and of the `AudioStream` stream
controller, and proves / refutes the frozen claims about them.

Modelling conventions:
  * Bytes are `Nat`; the Go byte store `[]byte` is a `List Nat`.
  * The semaphore channels `rSem`/`wSem` (`chan struct{}` with a fixed
    capacity) are modelled by a current count and a capacity.  A channel
    send with the channel full, and a channel receive with the channel
    empty, block the calling goroutine; in this sequential model a
    blocked operation is the error value `RBError.blocked`.
  * A Go slice access `rb.data[i]` with `i` out of range panics; this is
    the error value `RBError.oob`.
  * The mutex `rLock` orders intra-operation interleavings only; the
    claims treat `Write`/`ReadNoBlock` as atomic steps, so it has no
    counterpart in the sequential model.
-/

inductive RBError where
  | blocked
  | oob
deriving DecidableEq, Repr

instance exceptDecEq {ε α : Type} [DecidableEq ε] [DecidableEq α] :
    DecidableEq (Except ε α)
  | .error e, .error f =>
      if h : e = f then isTrue (h ▸ rfl)
      else isFalse (fun hh => by cases hh; exact h rfl)
  | .error _, .ok _ => isFalse (fun hh => by cases hh)
  | .ok _, .error _ => isFalse (fun hh => by cases hh)
  | .ok a, .ok b =>
      if h : a = b then isTrue (h ▸ rfl)
      else isFalse (fun hh => by cases hh; exact h rfl)

/-- One Go byte-store loop iteration chain: `rb.data[idx] = b; idx++` for each
byte of the list, failing like Go's slice-bounds panic when `idx` is out of
range.  Used for both loops of `RingBuffer.Write`. -/
def storeBytes : List Nat → List Nat → Nat → Option (List Nat × Nat)
  | [], data, idx => some (data, idx)
  | b :: bs, data, idx =>
      if idx < data.length then storeBytes bs (data.set idx b) (idx + 1)
      else none

/-- The copy loop of `RingBuffer.ReadNoBlock`: reads `count` bytes starting at
`idx`, incrementing the index, and after each increment receives from `wSem`
(count `wCount`) whenever the index crosses a multiple of `writeSize`. -/
def readBytes : Nat → List Nat → Nat → Nat → Nat → Except RBError (List Nat × Nat × Nat)
  | 0, _, idx, wCount, _ => .ok ([], idx, wCount)
  | count + 1, data, idx, wCount, wSize =>
      match data.get? idx with
      | none => .error .oob
      | some b =>
          if (idx + 1) % wSize = 0 then
            if wCount = 0 then .error .blocked
            else (readBytes count data (idx + 1) (wCount - 1) wSize).map
              (fun r => (b :: r.1, r.2))
          else (readBytes count data (idx + 1) wCount wSize).map
            (fun r => (b :: r.1, r.2))

structure RingBuffer where
  data : List Nat
  writeIdx : Nat
  readIdx : Nat
  writeSize : Nat
  readSize : Nat
  rSemCount : Nat
  rSemCap : Nat
  wSemCount : Nat
  wSemCap : Nat
deriving DecidableEq, Repr

structure RingBufferSpec where
  DataSize : Nat
  WriteSize : Nat
  ReadSize : Nat
deriving DecidableEq, Repr

def NewRingBuffer (spec : RingBufferSpec) : RingBuffer :=
  { data := List.replicate spec.DataSize 0
    writeIdx := 0
    readIdx := 0
    writeSize := spec.WriteSize
    readSize := spec.ReadSize
    rSemCount := 0
    rSemCap := spec.DataSize / spec.ReadSize
    wSemCount := 0
    wSemCap := spec.DataSize / spec.WriteSize }

/-- Tail of `RingBuffer.Write` after the byte copy: the read-chunk permit
signal, the write-cursor wraparound, and the overwrite-on-overflow
force-advance of the read cursor. -/
def RingBuffer.finishWrite (rb : RingBuffer) : Except RBError RingBuffer :=
  let rb := if rb.writeIdx = rb.data.length then { rb with writeIdx := 0 } else rb
  if rb.writeIdx = rb.readIdx then
    if rb.rSemCount = 0 then .error .blocked
    else .ok { rb with readIdx := rb.readIdx + rb.readSize, rSemCount := rb.rSemCount - 1 }
  else .ok rb

def RingBuffer.Write (rb : RingBuffer) (buff : List Nat) : Except RBError RingBuffer :=
  -- rb.wSem <- struct{}{}
  if rb.wSemCap ≤ rb.wSemCount then .error .blocked else
  let wCount := rb.wSemCount + 1
  -- truncate to writeSize
  let buff := if rb.writeSize < buff.length then buff.take rb.writeSize else buff
  -- copy loop
  match storeBytes buff rb.data rb.writeIdx with
  | none => .error .oob
  | some (d1, i1) =>
  -- zero-padding loop
  match storeBytes (List.replicate (rb.writeSize - buff.length) 0) d1 i1 with
  | none => .error .oob
  | some (d2, i2) =>
  -- read-chunk boundary: rb.rSem <- struct{}{}
  if i2 % rb.readSize = 0 then
    if rb.rSemCap ≤ rb.rSemCount then .error .blocked
    else RingBuffer.finishWrite
      { rb with data := d2, writeIdx := i2, wSemCount := wCount,
                rSemCount := rb.rSemCount + 1 }
  else RingBuffer.finishWrite
    { rb with data := d2, writeIdx := i2, wSemCount := wCount }

def RingBuffer.ReadNoBlock (rb : RingBuffer) : Except RBError (List Nat × Bool × RingBuffer) :=
  -- select { case <-rb.rSem: ... default: return buff, false }
  if rb.rSemCount = 0 then
    .ok (List.replicate rb.readSize 0, false, rb)
  else
    match readBytes rb.readSize rb.data rb.readIdx rb.wSemCount rb.writeSize with
    | .error e => .error e
    | .ok (bytes, i, w) =>
      let rb := { rb with rSemCount := rb.rSemCount - 1, readIdx := i, wSemCount := w }
      let rb := if rb.readIdx = rb.data.length then { rb with readIdx := 0 } else rb
      .ok (bytes, true, rb)

/-- A test-harness operation on a ring buffer: one producer write or one
consumer non-blocking read (read data discarded). -/
inductive RBOp where
  | write (chunk : List Nat)
  | read
deriving DecidableEq, Repr

/-- Runs a sequence of harness operations, stopping at the first blocked or
out-of-bounds operation. -/
def runOps : RingBuffer → List RBOp → Except RBError RingBuffer
  | rb, [] => .ok rb
  | rb, .write chunk :: ops => (rb.Write chunk).bind (fun rb' => runOps rb' ops)
  | rb, .read :: ops => (rb.ReadNoBlock).bind (fun r => runOps r.2.2 ops)

/-- Writes a list of chunks in order. -/
def writeAll : RingBuffer → List (List Nat) → Except RBError RingBuffer
  | rb, [] => .ok rb
  | rb, b :: bs => (rb.Write b).bind (fun rb' => writeAll rb' bs)

/-- Drains the buffer with repeated non-blocking reads (at most `fuel` of
them), collecting the delivered chunks in order.  The `Bool` component is
`true` when draining completed, i.e. the last read performed reported no
data available (rather than the fuel running out). -/
def drain : RingBuffer → Nat → Except RBError (List (List Nat) × Bool × RingBuffer)
  | rb, 0 => .ok ([], false, rb)
  | rb, fuel + 1 =>
      match rb.ReadNoBlock with
      | .error e => .error e
      | .ok (_, false, rb') => .ok ([], true, rb')
      | .ok (chunk, true, rb') =>
          (drain rb' fuel).map (fun r => (chunk :: r.1, r.2))

/-- The byte store after an in-bounds `Write`: the input truncated to
`writeSize` and zero-padded to exactly `writeSize`, overwriting the region
starting at the write cursor. -/
def writeData (rb : RingBuffer) (buff : List Nat) : List Nat :=
  rb.data.take rb.writeIdx ++
    (buff.take rb.writeSize ++ List.replicate (rb.writeSize - buff.length) 0) ++
    rb.data.drop (rb.writeIdx + rb.writeSize)

/-!
Parametric ring-buffer states for the full-capacity write/drain analysis
(capacity `m*k*W`, write chunk `W`, read chunk `k*W`).  These describe the
states reached from a fresh buffer: after the chunks `pre` have been
written (`midWriteState`), after the final capacity-filling write has
triggered the overwrite-on-overflow (`fullState`), and after `i` of the
draining reads (`readState`).
-/

def midWriteState (W k m : Nat) (pre : List (List Nat)) : RingBuffer :=
  { data := pre.flatten ++ List.replicate (m * k * W - pre.length * W) 0
    writeIdx := pre.length * W
    readIdx := 0
    writeSize := W
    readSize := k * W
    rSemCount := pre.length / k
    rSemCap := m
    wSemCount := pre.length
    wSemCap := m * k }

def fullState (W k m : Nat) (flat : List Nat) : RingBuffer :=
  { data := flat
    writeIdx := 0
    readIdx := k * W
    writeSize := W
    readSize := k * W
    rSemCount := m - 1
    rSemCap := m
    wSemCount := m * k
    wSemCap := m * k }

def readState (W k m i : Nat) (flat : List Nat) : RingBuffer :=
  { data := flat
    writeIdx := 0
    readIdx := ((1 + i) * (k * W)) % (m * (k * W))
    writeSize := W
    readSize := k * W
    rSemCount := m - 1 - i
    rSemCap := m
    wSemCount := (m - i) * k
    wSemCap := m * k }

/-!
The `AudioStream` stream controller (state machine `Off`/`Standby`/
`Recording`/`Error`), from the repository's `audiostream` package.

Modelling conventions:
  * The single-slot status channels `fmStatus`/`dmStatus` (`chan
    AudioStreamStatus` of capacity 1) are `Option AudioStreamStatus`; a
    send with the slot full blocks, i.e. is `StreamErr.blocked`.
  * The completion channels `fmDone`/`dmDone` (capacity 1) are `Bool`
    token flags; `true` means the corresponding worker has sent its
    completion signal.  The controller's blocking receive succeeds only
    when the token is present, otherwise it is `StreamErr.blocked`.
  * ALSA device operations are external collaborators; a `Device` is the
    record of the results its capability operations would return, with
    abstract `Nat` error codes.  A Go `nil` device pointer is `none`
    (dereferencing it would panic: `StreamErr.nilDevice`).
  * Externally visible side effects of a controller transition (signals
    sent to the workers, completion signals received, closing the capture
    device, launching the workers) are reported as an ordered `ASEvent`
    trace alongside the successor state.
-/

inductive AudioStreamStatus where
  | recording
  | standby
  | off
  | error
deriving DecidableEq, Repr

structure Device where
  openResult : Except Nat Unit
  negotiateChannelsResult : Except Nat Nat
  negotiateRateResult : Except Nat Nat
  negotiateFormatResult : Except Nat Nat
  negotiateBufferSizeResult : Except Nat Nat
  prepareResult : Except Nat Unit
  frameBufferSize : Nat
deriving DecidableEq, Repr

structure DeviceConfig where
  NumChannels : Nat
  FrameRate : Nat
  FrameFormat : Nat
  BufferSize : Nat
deriving DecidableEq, Repr

inductive StreamErr where
  | devErr (code : Nat)
  | mustBeOffOrStandby
  | mustBeOff
  | unknownStatus
  | nilDevice
  | blocked
deriving DecidableEq, Repr

inductive ASEvent where
  | sendDmStatus (s : AudioStreamStatus)
  | sendFmStatus (s : AudioStreamStatus)
  | recvFmDone
  | recvDmDone
  | closeDevice
  | startWorkers
deriving DecidableEq, Repr

structure AudioStream where
  device : Option Device
  deviceConfig : DeviceConfig
  fileName : String
  status : AudioStreamStatus
  fmStatus : Option AudioStreamStatus
  dmStatus : Option AudioStreamStatus
  fmDone : Bool
  dmDone : Bool
  ringBuffer : Option RingBuffer
deriving DecidableEq, Repr

def NewAudioStream : AudioStream :=
  { device := none
    deviceConfig := ⟨0, 0, 0, 0⟩
    fileName := ""
    status := .off
    fmStatus := none
    dmStatus := none
    fmDone := false
    dmDone := false
    ringBuffer := none }

def AudioStream.SetDevice (a : AudioStream) (device : Device) (_config : DeviceConfig) :
    Except StreamErr AudioStream :=
  if a.status ≠ .off then .error .mustBeOff
  else .ok { a with device := some device }

def AudioStream.SetFileName (a : AudioStream) (fileName : String) :
    Except StreamErr AudioStream :=
  -- Go: if a.status != statusStandby || a.status != statusOff { return error }
  if a.status ≠ .standby ∨ a.status ≠ .off then .error .mustBeOffOrStandby
  else .ok { a with fileName := fileName }

def AudioStream.Record (a : AudioStream) : Except StreamErr (AudioStream × List ASEvent) :=
  if a.dmStatus.isSome then .error .blocked else
  let a := { a with dmStatus := some .recording }
  if a.fmStatus.isSome then .error .blocked else
  .ok ({ a with fmStatus := some .recording },
       [.sendDmStatus .recording, .sendFmStatus .recording])

def AudioStream.startDevice (a : AudioStream) : Except StreamErr Unit :=
  match a.device with
  | none => .error .nilDevice
  | some d =>
  match d.openResult with
  | .error e => .error (.devErr e)
  | .ok _ =>
  match d.negotiateChannelsResult with
  | .error e => .error (.devErr e)
  | .ok _ =>
  match d.negotiateRateResult with
  | .error e => .error (.devErr e)
  | .ok _ =>
  match d.negotiateFormatResult with
  | .error e => .error (.devErr e)
  | .ok _ =>
  match d.negotiateBufferSizeResult with
  | .error e => .error (.devErr e)
  | .ok _ =>
  match d.prepareResult with
  | .error e => .error (.devErr e)
  | .ok _ => .ok ()

/-- Sizes the ring buffer from the negotiated 2-second frame buffer:
read chunk 4 times the frame chunk, data capacity 20 times. -/
def AudioStream.setupBuffers (a : AudioStream) : Option (Nat × RingBuffer) :=
  match a.device with
  | none => none
  | some d =>
      let frameBufferSize := d.frameBufferSize
      some (frameBufferSize,
        NewRingBuffer ⟨frameBufferSize * 20, frameBufferSize, frameBufferSize * 4⟩)

def AudioStream.Standby (a : AudioStream) : Except StreamErr (AudioStream × List ASEvent) :=
  match a.status with
  | .standby =>
      if a.dmStatus.isSome then .error .blocked else
      let a := { a with dmStatus := some .standby }
      if a.fmStatus.isSome then .error .blocked else
      .ok ({ a with fmStatus := some .standby },
           [.sendDmStatus .standby, .sendFmStatus .standby])
  | .off =>
      match a.startDevice with
      | .error e => .error e
      | .ok _ =>
      match a.setupBuffers with
      | none => .error .nilDevice
      | some (_, ringBuffer) =>
          .ok ({ a with ringBuffer := some ringBuffer, status := .standby },
               [.startWorkers])
  | .recording =>
      if a.dmStatus.isSome then .error .blocked else
      let a := { a with dmStatus := some .standby }
      if a.fmStatus.isSome then .error .blocked else
      .ok ({ a with fmStatus := some .standby, status := .standby },
           [.sendDmStatus .standby, .sendFmStatus .standby])
  | .error => .error .unknownStatus

def AudioStream.Off (a : AudioStream) : Except StreamErr (AudioStream × List ASEvent) :=
  match a.status with
  | .standby =>
      if a.dmStatus.isSome then .error .blocked else
      let a := { a with dmStatus := some .off }
      if a.fmStatus.isSome then .error .blocked else
      let a := { a with fmStatus := some .off }
      .ok ({ a with status := .off },
           [.sendDmStatus .off, .sendFmStatus .off, .closeDevice])
  | .recording =>
      if a.dmStatus.isSome then .error .blocked else
      let a := { a with dmStatus := some .off }
      if a.fmStatus.isSome then .error .blocked else
      let a := { a with fmStatus := some .off }
      -- <-a.fmDone ; <-a.dmDone : rendezvous with both workers
      if a.fmDone then
        let a := { a with fmDone := false }
        if a.dmDone then
          .ok ({ a with dmDone := false, status := .off },
               [.sendDmStatus .off, .sendFmStatus .off,
                .recvFmDone, .recvDmDone, .closeDevice])
        else .error .blocked
      else .error .blocked
  | .off => .ok (a, [])
  | .error => .error .unknownStatus

/-- The event trace of a successful deactivation from `Recording`. -/
def offRecordingTrace : List ASEvent :=
  [.sendDmStatus .off, .sendFmStatus .off, .recvFmDone, .recvDmDone, .closeDevice]

/-!
Helper lemmas about the byte-store loops and `Write`.
-/

theorem storeBytes_eq : ∀ (l data : List Nat) (idx : Nat),
    idx + l.length ≤ data.length →
    storeBytes l data idx =
      some (data.take idx ++ l ++ data.drop (idx + l.length), idx + l.length)
  | [], data, idx, _ => by
      simp [storeBytes]
  | b :: bs, data, idx, h => by
      have hlt : idx < data.length := by
        simp only [List.length_cons] at h
        omega
      have hrec := storeBytes_eq bs (data.set idx b) (idx + 1)
        (by
          simp only [List.length_set]
          simp only [List.length_cons] at h
          omega)
      rw [storeBytes, if_pos hlt, hrec]
      have htake : (data.set idx b).take (idx + 1) = data.take idx ++ [b] := by
        rw [List.take_succ, List.set_take,
            List.set_eq_of_length_le (List.length_take_le _ _),
            List.getElem?_set_self (by simpa using hlt)]
        rfl
      have hdrop : (data.set idx b).drop (idx + 1 + bs.length) =
          data.drop (idx + 1 + bs.length) := by
        rw [List.drop_set, if_pos (by omega)]
      rw [htake, hdrop]
      have harith : idx + 1 + bs.length = idx + (b :: bs).length := by
        simp only [List.length_cons]
        omega
      rw [harith]
      simp [List.append_assoc]

theorem storeBytes_none : ∀ (l data : List Nat) (idx : Nat),
    data.length < idx + l.length → l ≠ [] →
    storeBytes l data idx = none
  | [], _, _, _, hne => absurd rfl hne
  | b :: bs, data, idx, h, _ => by
      by_cases hlt : idx < data.length
      · rw [storeBytes, if_pos hlt]
        have hlen : data.length < idx + 1 + bs.length := by
          simp only [List.length_cons] at h
          omega
        have hbs : bs ≠ [] := by
          intro he
          subst he
          simp only [List.length_nil, Nat.add_zero] at hlen
          omega
        exact storeBytes_none bs (data.set idx b) (idx + 1)
          (by simpa using hlen) hbs
      · rw [storeBytes, if_neg hlt]

theorem drop_append_left (l1 l2 : List Nat) (n : Nat) :
    (l1 ++ l2).drop (l1.length + n) = l2.drop n := by
  rw [← List.drop_drop, List.drop_left]

/-- Characterization of any `finishWrite` that returns a state: the data,
the chunk sizes, the write-permit count are untouched, and the write cursor
is the incoming one wrapped at capacity. -/
theorem finishWrite_ok (rb rb' : RingBuffer) (h : rb.finishWrite = .ok rb') :
    rb'.data = rb.data ∧
    rb'.writeIdx = (if rb.writeIdx = rb.data.length then 0 else rb.writeIdx) ∧
    rb'.writeSize = rb.writeSize ∧ rb'.readSize = rb.readSize ∧
    rb'.wSemCount = rb.wSemCount ∧ rb'.wSemCap = rb.wSemCap ∧
    rb'.rSemCap = rb.rSemCap := by
  unfold RingBuffer.finishWrite at h
  dsimp only at h
  split at h <;> split at h
  · split at h
    · cases h
    · cases h
      simp_all
  · cases h
    simp_all
  · split at h
    · cases h
    · cases h
      simp_all
  · cases h
    simp_all

theorem Write_blocked (rb : RingBuffer) (buff : List Nat)
    (hw : rb.wSemCap ≤ rb.wSemCount) : rb.Write buff = .error .blocked := by
  unfold RingBuffer.Write
  rw [if_pos hw]

/-- Evaluation of a non-blocked, in-bounds `Write`: the byte copy stores the
input truncated to `writeSize` and zero-padded to exactly `writeSize` at the
write cursor and advances the cursor by `writeSize`, after which the
read-permit signal and the wrap/overflow logic runs. -/
theorem Write_ok (rb : RingBuffer) (buff : List Nat)
    (hb : rb.writeIdx + rb.writeSize ≤ rb.data.length)
    (hw : ¬ rb.wSemCap ≤ rb.wSemCount) :
    rb.Write buff =
      if (rb.writeIdx + rb.writeSize) % rb.readSize = 0 then
        if rb.rSemCap ≤ rb.rSemCount then .error .blocked
        else RingBuffer.finishWrite
          { rb with data := writeData rb buff,
                    writeIdx := rb.writeIdx + rb.writeSize,
                    wSemCount := rb.wSemCount + 1,
                    rSemCount := rb.rSemCount + 1 }
      else RingBuffer.finishWrite
        { rb with data := writeData rb buff,
                  writeIdx := rb.writeIdx + rb.writeSize,
                  wSemCount := rb.wSemCount + 1 } := by
  unfold RingBuffer.Write
  rw [if_neg hw]
  dsimp only
  by_cases hc : rb.writeSize < buff.length
  · have hlen : (buff.take rb.writeSize).length = rb.writeSize := by
      simp only [List.length_take]
      omega
    have hs1 := storeBytes_eq (buff.take rb.writeSize) rb.data rb.writeIdx
      (by rw [hlen]; exact hb)
    rw [hlen] at hs1
    have hpadB : rb.writeSize - buff.length = 0 := by omega
    simp only [if_pos hc, hs1, hlen, Nat.sub_self, List.replicate_zero, storeBytes]
    simp [writeData, hpadB, List.append_assoc]
  · have hble : buff.length ≤ rb.writeSize := Nat.le_of_not_lt hc
    have hs1 := storeBytes_eq buff rb.data rb.writeIdx (by omega)
    have hTlen : (rb.data.take rb.writeIdx).length = rb.writeIdx := by
      simp only [List.length_take]
      omega
    have hs2 := storeBytes_eq (List.replicate (rb.writeSize - buff.length) 0)
      (rb.data.take rb.writeIdx ++ buff ++ rb.data.drop (rb.writeIdx + buff.length))
      (rb.writeIdx + buff.length)
      (by
        simp only [List.length_append, List.length_take, List.length_drop,
          List.length_replicate]
        omega)
    rw [List.length_replicate] at hs2
    have hidx : rb.writeIdx + buff.length + (rb.writeSize - buff.length) =
        rb.writeIdx + rb.writeSize := by omega
    rw [hidx] at hs2
    have htk : (rb.data.take rb.writeIdx ++ buff ++
          rb.data.drop (rb.writeIdx + buff.length)).take (rb.writeIdx + buff.length) =
        rb.data.take rb.writeIdx ++ buff :=
      List.take_left' (by simp [hTlen])
    have hdr : (rb.data.take rb.writeIdx ++ buff ++
          rb.data.drop (rb.writeIdx + buff.length)).drop (rb.writeIdx + rb.writeSize) =
        rb.data.drop (rb.writeIdx + rb.writeSize) := by
      have h1 : rb.writeIdx + rb.writeSize =
          (rb.data.take rb.writeIdx ++ buff).length + (rb.writeSize - buff.length) := by
        simp only [List.length_append, hTlen]
        omega
      rw [h1, drop_append_left, List.drop_drop]
      congr 1
      omega
    rw [htk, hdr] at hs2
    simp only [if_neg hc, hs1, hs2]
    simp [writeData, List.take_of_length_le hble, List.append_assoc]

/-- A `Write` whose in-bounds precondition fails never returns a state (it
blocks on the permit or panics out of bounds). -/
theorem Write_not_ok_of_oob (rb : RingBuffer) (buff : List Nat)
    (hW : 0 < rb.writeSize)
    (hb : rb.data.length < rb.writeIdx + rb.writeSize) (rb' : RingBuffer) :
    rb.Write buff ≠ .ok rb' := by
  intro h
  unfold RingBuffer.Write at h
  by_cases hw : rb.wSemCap ≤ rb.wSemCount
  · rw [if_pos hw] at h
    cases h
  · rw [if_neg hw] at h
    dsimp only at h
    by_cases hc : rb.writeSize < buff.length
    · have hn := storeBytes_none (buff.take rb.writeSize) rb.data rb.writeIdx
        (by simp only [List.length_take]; omega)
        (by
          intro he
          have := congrArg List.length he
          simp only [List.length_take, List.length_nil] at this
          omega)
      simp only [if_pos hc, hn] at h
      exact Except.noConfusion h
    · rw [if_neg hc] at h
      by_cases hbe : buff = []
      · subst hbe
        have hn := storeBytes_none
          (List.replicate (rb.writeSize - ([] : List Nat).length) 0)
          rb.data rb.writeIdx
          (by simp only [List.length_replicate, List.length_nil]; omega)
          (by
            intro he
            have := congrArg List.length he
            simp only [List.length_replicate, List.length_nil] at this
            omega)
        simp only [storeBytes, hn] at h
        exact Except.noConfusion h
      · by_cases hd : rb.data.length < rb.writeIdx + buff.length
        · have hn := storeBytes_none buff rb.data rb.writeIdx hd hbe
          simp only [hn] at h
          exact Except.noConfusion h
        · have hs1 := storeBytes_eq buff rb.data rb.writeIdx (by omega)
          have hn := storeBytes_none (List.replicate (rb.writeSize - buff.length) 0)
            (rb.data.take rb.writeIdx ++ buff ++
              rb.data.drop (rb.writeIdx + buff.length))
            (rb.writeIdx + buff.length)
            (by
              simp only [List.length_append, List.length_take, List.length_drop,
                List.length_replicate]
              omega)
            (by
              intro he
              have := congrArg List.length he
              simp only [List.length_replicate, List.length_nil] at this
              omega)
          simp only [hs1, hn] at h
          exact Except.noConfusion h

/-- `finishWrite` never reports an out-of-bounds access. -/
theorem finishWrite_ne_oob (rb : RingBuffer) : rb.finishWrite ≠ .error .oob := by
  intro h
  unfold RingBuffer.finishWrite at h
  dsimp only at h
  split at h <;> split at h
  · split at h
    · simp at h
    · simp at h
  · simp at h
  · split at h
    · simp at h
    · simp at h
  · simp at h

/-!
Claim theorems, part 1: concrete-trace results and the controller claims.
-/

/-- C2 counterexample: after the four 2-byte writes `[1,2]`,`[3,4]`,`[5,6]`,
`[7,8]` into the 16/2/4 ring buffer, the second readNonBlocking does NOT
return `available = false` as the claim states: the write cursor crossed a
read-chunk boundary at bytes 4 and 8, so two read permits exist and the
second read returns `([5,6,7,8], true)`. -/
theorem c2_second_read_is_available :
    ((writeAll (NewRingBuffer ⟨16, 2, 4⟩) [[1,2],[3,4],[5,6],[7,8]]).bind
        (fun rb => rb.ReadNoBlock)).bind
      (fun r => r.2.2.ReadNoBlock.map (fun s => (s.1, s.2.1))) =
      .ok ([5,6,7,8], true) ∧
    ((writeAll (NewRingBuffer ⟨16, 2, 4⟩) [[1,2],[3,4],[5,6],[7,8]]).bind
        (fun rb => rb.ReadNoBlock)).bind
      (fun r => r.2.2.ReadNoBlock.map (fun s => s.2.1)) ≠ .ok false := by
  decide

/-- C2 amended: for `RingBufferSpec{capacity=16, write=2, read=4}` after the
four 2-byte writes, the first readNonBlocking returns `([1,2,3,4], true)`,
the second returns `([5,6,7,8], true)`, and a third readNonBlocking with no
further writes returns `available = false`. -/
theorem c2_scenario_two_chunks_then_empty :
    (writeAll (NewRingBuffer ⟨16, 2, 4⟩) [[1,2],[3,4],[5,6],[7,8]]).bind
      (fun rb => (drain rb 3).map (fun r => (r.1, r.2.1))) =
      .ok ([[1,2,3,4],[5,6,7,8]], true) := by
  decide

/-- C3: the claim is right and the code is wrong.  On the 8/2/4 ring buffer
(capacity a multiple of both chunk sizes), the op sequence
write,write,write,read,write,write,write makes the final write's
overwrite-on-overflow force-advance push the read cursor from 4 to 8 =
capacity, i.e. out of the range `[0, capacityBytes)`, because the
force-advance `readIdx += readSize` is not performed modulo capacity; the
next readNonBlocking then indexes the byte store out of bounds. -/
theorem c3_forceadvance_leaves_cursor_at_capacity :
    (runOps (NewRingBuffer ⟨8, 2, 4⟩)
        [.write [1,2], .write [3,4], .write [5,6], .read,
         .write [7,8], .write [9,10], .write [11,12]]).map
      (fun rb => (rb.readIdx, rb.data.length)) = .ok (8, 8) ∧
    runOps (NewRingBuffer ⟨8, 2, 4⟩)
        [.write [1,2], .write [3,4], .write [5,6], .read,
         .write [7,8], .write [9,10], .write [11,12], .read] =
      .error .oob := by
  decide

/-- C4: the claim is right and the code is wrong.  The guard
`a.status != statusStandby || a.status != statusOff` is a tautology (no
status equals both), so SetFileName returns the configuration error and
leaves the destination unchanged in EVERY status, including Standby and
Off where the claim (and the function's own error message) say it must
succeed. -/
theorem c4_setFileName_always_rejected (a : AudioStream) (fileName : String) :
    a.SetFileName fileName = .error .mustBeOffOrStandby := by
  cases h : a.status <;> simp [AudioStream.SetFileName, h]

/-- C5: deactivating from Recording signals both workers, receives both
workers' completion signals, and only then closes the capture source: the
close event is preceded in the transition's trace by both done-receives,
and if either worker has not yet signalled completion the controller
blocks (no close happens at all). -/
theorem c5_off_from_recording_rendezvous (a : AudioStream)
    (hs : a.status = .recording) (hdm : a.dmStatus = none) (hfm : a.fmStatus = none) :
    (a.fmDone = true → a.dmDone = true →
      a.Off = .ok ({ a with
        dmStatus := some .off, fmStatus := some .off,
        fmDone := false, dmDone := false, status := .off },
        offRecordingTrace)) ∧
    ((a.fmDone = false ∨ a.dmDone = false) → a.Off = .error .blocked) ∧
    offRecordingTrace.count .closeDevice = 1 ∧
    offRecordingTrace.indexOf .recvFmDone < offRecordingTrace.indexOf .closeDevice ∧
    offRecordingTrace.indexOf .recvDmDone < offRecordingTrace.indexOf .closeDevice := by
  refine ⟨?_, ?_, by decide, by decide, by decide⟩
  · intro hfd hdd
    simp [AudioStream.Off, hs, hdm, hfm, hfd, hdd, offRecordingTrace]
  · rintro (h | h)
    · simp [AudioStream.Off, hs, hdm, hfm, h]
    · cases hf : a.fmDone <;> simp [AudioStream.Off, hs, hdm, hfm, h, hf]

/-- C5 witness: a concrete Recording-state controller whose two workers have
both signalled completion deactivates successfully with the rendezvous
trace. -/
theorem c5_off_from_recording_rendezvous_witness :
    ({ NewAudioStream with status := .recording, fmDone := true, dmDone := true }
        : AudioStream).Off =
      .ok ({ NewAudioStream with
        status := .off, dmStatus := some .off,
        fmStatus := some .off, fmDone := false, dmDone := false },
        offRecordingTrace) :=
  (c5_off_from_recording_rendezvous
    { NewAudioStream with status := .recording, fmDone := true, dmDone := true }
    rfl rfl rfl).1 rfl rfl

/-- C6 counterexample: arming from Standby does not transition the
controller to Recording: `Record` only signals the workers and never
updates the status field, so the externally observable status afterwards is
still Standby. -/
theorem c6_record_leaves_status_standby :
    (({ NewAudioStream with status := .standby } : AudioStream).Record).map
        (fun r => r.1.status) = .ok .standby ∧
    (({ NewAudioStream with status := .standby } : AudioStream).Record).map
        (fun r => r.1.status) ≠ .ok .recording := by
  decide

/-- C6 amended: when arm (`Record`) is invoked with the controller in
Standby (worker signal slots free), both workers are signalled to arm
(recording is sent on both status channels), but the controller's own
status field is unchanged: it remains Standby, not Recording. -/
theorem c6_record_signals_workers_status_unchanged (a : AudioStream)
    (hs : a.status = .standby) (hdm : a.dmStatus = none) (hfm : a.fmStatus = none) :
    a.Record = .ok ({ a with dmStatus := some .recording, fmStatus := some .recording },
                    [.sendDmStatus .recording, .sendFmStatus .recording]) ∧
    ({ a with dmStatus := some .recording, fmStatus := some .recording }
        : AudioStream).status = .standby := by
  constructor
  · simp [AudioStream.Record, hdm, hfm]
  · simpa using hs

/-- C6 witness: arming a concrete Standby-state controller signals both
workers and leaves the status field at Standby. -/
theorem c6_record_signals_workers_witness :
    ({ NewAudioStream with status := .standby } : AudioStream).Record =
      .ok ({ NewAudioStream with
        status := .standby, dmStatus := some .recording,
        fmStatus := some .recording },
        [.sendDmStatus .recording, .sendFmStatus .recording]) :=
  (c6_record_signals_workers_status_unchanged
    { NewAudioStream with status := .standby } rfl rfl rfl).1

/-- C7: if activation (`Standby` from Off) fails during capture-source
setup (open, any negotiation step, or prepare), the setup error is returned
synchronously and no transition happens; after replacing the device with
one whose whole setup succeeds (a valid configuration), a retry succeeds
and the controller reaches Standby. -/
theorem c7_standby_setup_failure_then_retry (a a2 : AudioStream) (e : StreamErr)
    (d' : Device) (config : DeviceConfig)
    (h1 : a.status = .off) (h2 : a.startDevice = .error e)
    (h3 : a.SetDevice d' config = .ok a2) (h4 : a2.startDevice = .ok ()) :
    a.Standby = .error e ∧
    (∃ a3 tr, a2.Standby = .ok (a3, tr) ∧ a3.status = .standby) := by
  have ha2 : a2 = { a with device := some d', status := .off } := by
    simp [AudioStream.SetDevice, h1] at h3
    exact h3.symm
  constructor
  · simp [AudioStream.Standby, h1, h2]
  · subst ha2
    refine ⟨{ a with
        device := some d', status := .standby,
        ringBuffer := some (NewRingBuffer ⟨d'.frameBufferSize * 20,
          d'.frameBufferSize, d'.frameBufferSize * 4⟩) },
      [.startWorkers], ?_, rfl⟩
    simp [AudioStream.Standby, AudioStream.setupBuffers, h4]

/-- C7 witness: a device failing rate negotiation with error code 7 makes
activation fail with that error and no transition; retrying after
installing an all-valid device reaches Standby. -/
theorem c7_standby_setup_failure_then_retry_witness :
    ({ NewAudioStream with
        device := some ⟨.ok (), .ok 1, .error 7, .ok 1, .ok 1, .ok (), 4⟩ }
        : AudioStream).Standby = .error (.devErr 7) ∧
    (∃ a3 tr,
      ({ NewAudioStream with
          device := some ⟨.ok (), .ok 1, .ok 44100, .ok 1, .ok 1, .ok (), 4⟩ }
          : AudioStream).Standby = .ok (a3, tr) ∧ a3.status = .standby) :=
  c7_standby_setup_failure_then_retry
    { NewAudioStream with
        device := some ⟨.ok (), .ok 1, .error 7, .ok 1, .ok 1, .ok (), 4⟩ }
    { NewAudioStream with
        device := some ⟨.ok (), .ok 1, .ok 44100, .ok 1, .ok 1, .ok (), 4⟩ }
    (.devErr 7)
    ⟨.ok (), .ok 1, .ok 44100, .ok 1, .ok 1, .ok (), 4⟩
    ⟨1, 44100, 2, 1024⟩ rfl rfl rfl rfl

/-- C9: readNonBlocking on a ring buffer with no full read chunk available
(read-permit count zero, e.g. a freshly created buffer) returns immediately
with `available = false` and an all-zero buffer, leaving the entire buffer
state (cursors and permit counts included) unchanged. -/
theorem c9_readNoBlock_empty (rb : RingBuffer) (h : rb.rSemCount = 0) :
    rb.ReadNoBlock = .ok (List.replicate rb.readSize 0, false, rb) := by
  simp [RingBuffer.ReadNoBlock, h]

/-- C9 witness: a freshly created 16/2/4 ring buffer reports no data
available and is unchanged. -/
theorem c9_readNoBlock_empty_witness :
    (NewRingBuffer ⟨16, 2, 4⟩).ReadNoBlock =
      .ok (List.replicate 4 0, false, NewRingBuffer ⟨16, 2, 4⟩) :=
  c9_readNoBlock_empty (NewRingBuffer ⟨16, 2, 4⟩) rfl

/-!
Claim theorems, part 2: Write truncation/padding (C8) and the missing
spec validation in NewRingBuffer (C10).
-/

theorem writeData_length (rb : RingBuffer) (buff : List Nat)
    (hb : rb.writeIdx + rb.writeSize ≤ rb.data.length) :
    (writeData rb buff).length = rb.data.length := by
  simp only [writeData, List.length_append, List.length_take, List.length_drop,
    List.length_replicate]
  omega

/-- C8: every `Write` that returns a state stored exactly `writeSize` bytes
at the old write cursor: the input truncated to its first `writeSize` bytes
if longer, zero-padded to exactly `writeSize` bytes if shorter; and the
write cursor advanced by exactly `writeSize` (modulo capacity, wrapping to 0
when it reaches the end of the byte store). -/
theorem c8_write_truncates_pads_advances (rb rb' : RingBuffer) (buff : List Nat)
    (hW : 0 < rb.writeSize) (h : rb.Write buff = .ok rb') :
    rb'.data = rb.data.take rb.writeIdx ++
        (buff.take rb.writeSize ++ List.replicate (rb.writeSize - buff.length) 0) ++
        rb.data.drop (rb.writeIdx + rb.writeSize) ∧
    (buff.take rb.writeSize ++ List.replicate (rb.writeSize - buff.length) 0).length
        = rb.writeSize ∧
    rb'.writeIdx = (rb.writeIdx + rb.writeSize) % rb.data.length := by
  have hmid : (buff.take rb.writeSize ++
      List.replicate (rb.writeSize - buff.length) 0).length = rb.writeSize := by
    simp only [List.length_append, List.length_take, List.length_replicate]
    omega
  by_cases hw : rb.wSemCap ≤ rb.wSemCount
  · rw [Write_blocked rb buff hw] at h
    exact Except.noConfusion h
  · by_cases hb : rb.writeIdx + rb.writeSize ≤ rb.data.length
    · rw [Write_ok rb buff hb hw] at h
      split at h
      · split at h
        · exact Except.noConfusion h
        · obtain ⟨hd, hwidx, -, -, -, -, -⟩ := finishWrite_ok _ _ h
          refine ⟨by rw [hd]; rfl, hmid, ?_⟩
          rw [hwidx]
          show (if rb.writeIdx + rb.writeSize = (writeData rb buff).length then 0
            else rb.writeIdx + rb.writeSize) = _
          rw [writeData_length rb buff hb]
          by_cases he : rb.writeIdx + rb.writeSize = rb.data.length
          · rw [if_pos he, he, Nat.mod_self]
          · rw [if_neg he, Nat.mod_eq_of_lt (by omega)]
      · obtain ⟨hd, hwidx, -, -, -, -, -⟩ := finishWrite_ok _ _ h
        refine ⟨by rw [hd]; rfl, hmid, ?_⟩
        rw [hwidx]
        show (if rb.writeIdx + rb.writeSize = (writeData rb buff).length then 0
          else rb.writeIdx + rb.writeSize) = _
        rw [writeData_length rb buff hb]
        by_cases he : rb.writeIdx + rb.writeSize = rb.data.length
        · rw [if_pos he, he, Nat.mod_self]
        · rw [if_neg he, Nat.mod_eq_of_lt (by omega)]
    · exact absurd h (Write_not_ok_of_oob rb buff hW (by omega) rb')

/-- C8 witness: writing the 3-byte chunk `[7,8,9]` into a fresh 4/2/2 ring
buffer stores its first 2 bytes and advances the write cursor by 2. -/
theorem c8_write_truncates_pads_advances_witness :
    (RingBuffer.mk [7,8,0,0] 2 0 2 2 1 2 1 2).data =
        (NewRingBuffer ⟨4, 2, 2⟩).data.take (NewRingBuffer ⟨4, 2, 2⟩).writeIdx ++
          (([7,8,9] : List Nat).take (NewRingBuffer ⟨4, 2, 2⟩).writeSize ++
            List.replicate
              ((NewRingBuffer ⟨4, 2, 2⟩).writeSize - ([7,8,9] : List Nat).length) 0) ++
          (NewRingBuffer ⟨4, 2, 2⟩).data.drop
            ((NewRingBuffer ⟨4, 2, 2⟩).writeIdx + (NewRingBuffer ⟨4, 2, 2⟩).writeSize) ∧
    (([7,8,9] : List Nat).take (NewRingBuffer ⟨4, 2, 2⟩).writeSize ++
        List.replicate
          ((NewRingBuffer ⟨4, 2, 2⟩).writeSize - ([7,8,9] : List Nat).length) 0).length
      = (NewRingBuffer ⟨4, 2, 2⟩).writeSize ∧
    (RingBuffer.mk [7,8,0,0] 2 0 2 2 1 2 1 2).writeIdx =
      ((NewRingBuffer ⟨4, 2, 2⟩).writeIdx + (NewRingBuffer ⟨4, 2, 2⟩).writeSize) %
        (NewRingBuffer ⟨4, 2, 2⟩).data.length :=
  c8_write_truncates_pads_advances (NewRingBuffer ⟨4, 2, 2⟩)
    (RingBuffer.mk [7,8,0,0] 2 0 2 2 1 2 1 2) [7,8,9] (by decide) (by decide)

/-- C10: NewRingBuffer validates nothing.  With the spec 7/3/3 (capacity not
a multiple of the write chunk) construction succeeds and, after two writes
and one read, a fourth operation — a Write — indexes the byte store out of
bounds.  Conversely, whenever capacity is a positive multiple of
`writeSize` and the write cursor is an in-range multiple of `writeSize`
(as in every state reachable from a fresh valid buffer), a Write never
goes out of bounds and re-establishes the same invariant. -/
theorem c10_no_spec_validation_oob :
    (∃ rb3, runOps (NewRingBuffer ⟨7, 3, 3⟩)
        [.write [1,2,3], .write [4,5,6], .read] = .ok rb3 ∧
      rb3.Write [7,8,9] = .error .oob) ∧
    (∀ (rb : RingBuffer) (buff : List Nat),
      0 < rb.writeSize → rb.writeSize ∣ rb.data.length →
      rb.writeSize ∣ rb.writeIdx → rb.writeIdx < rb.data.length →
      rb.Write buff ≠ .error .oob ∧
      ∀ rb' : RingBuffer, rb.Write buff = .ok rb' →
        0 < rb'.writeSize ∧ rb'.writeSize ∣ rb'.data.length ∧
        rb'.writeSize ∣ rb'.writeIdx ∧ rb'.writeIdx < rb'.data.length) := by
  constructor
  · exact ⟨_, rfl, by decide⟩
  · intro rb buff hW hdl hdi hlt
    have hb : rb.writeIdx + rb.writeSize ≤ rb.data.length := by
      have h1 : rb.writeSize ∣ (rb.data.length - rb.writeIdx) := Nat.dvd_sub' hdl hdi
      have h2 : 0 < rb.data.length - rb.writeIdx := by omega
      have := Nat.le_of_dvd h2 h1
      omega
    by_cases hw : rb.wSemCap ≤ rb.wSemCount
    · rw [Write_blocked rb buff hw]
      exact ⟨by simp, fun rb' h => Except.noConfusion h⟩
    · rw [Write_ok rb buff hb hw]
      constructor
      · split
        · split
          · simp
          · exact finishWrite_ne_oob _
        · exact finishWrite_ne_oob _
      · intro rb' h
        have key : ∀ X : RingBuffer, X.data = writeData rb buff →
            X.writeIdx = rb.writeIdx + rb.writeSize → X.writeSize = rb.writeSize →
            X.finishWrite = .ok rb' →
            0 < rb'.writeSize ∧ rb'.writeSize ∣ rb'.data.length ∧
              rb'.writeSize ∣ rb'.writeIdx ∧ rb'.writeIdx < rb'.data.length := by
          intro X hXd hXw hXs hfin
          obtain ⟨hd, hwidx, hws, -, -, -, -⟩ := finishWrite_ok _ _ hfin
          have hlen : rb'.data.length = rb.data.length := by
            rw [hd, hXd, writeData_length rb buff hb]
          have hws' : rb'.writeSize = rb.writeSize := by rw [hws, hXs]
          rw [hws', hlen, hwidx, hXw, hXd, writeData_length rb buff hb]
          refine ⟨hW, hdl, ?_, ?_⟩
          · by_cases he : rb.writeIdx + rb.writeSize = rb.data.length
            · rw [if_pos he]
              exact Dvd.intro 0 rfl
            · rw [if_neg he]
              exact Nat.dvd_add hdi dvd_rfl
          · by_cases he : rb.writeIdx + rb.writeSize = rb.data.length
            · rw [if_pos he]
              omega
            · rw [if_neg he]
              omega
        split at h
        · split at h
          · exact Except.noConfusion h
          · exact key { rb with
              data := writeData rb buff,
              writeIdx := rb.writeIdx + rb.writeSize,
              wSemCount := rb.wSemCount + 1,
              rSemCount := rb.rSemCount + 1 } rfl rfl rfl h
        · exact key { rb with
            data := writeData rb buff,
            writeIdx := rb.writeIdx + rb.writeSize,
            wSemCount := rb.wSemCount + 1 } rfl rfl rfl h

/-- C10 witness: a fresh 6/2/3 ring buffer (capacity a multiple of the
write chunk, write cursor 0) accepts a write without any out-of-bounds
access. -/
theorem c10_no_spec_validation_oob_witness :
    (NewRingBuffer ⟨6, 2, 3⟩).Write [5,5] ≠ .error .oob :=
  (c10_no_spec_validation_oob.2 (NewRingBuffer ⟨6, 2, 3⟩) [5,5]
    (by decide) (by decide) (by decide) (by decide)).1

/-!
Helper lemmas about the read loop `readBytes`, building up to
`readBytes_blocks`: reading `j` full write-chunks from a chunk-aligned
position returns exactly that slice of the store and releases exactly `j`
write permits.
-/

theorem take_append_add (l1 l2 : List Nat) (n : Nat) :
    (l1 ++ l2).take (l1.length + n) = l1 ++ l2.take n := by
  induction l1 with
  | nil => simp
  | cons x xs ih =>
      simp only [List.cons_append, List.length_cons]
      have : xs.length + 1 + n = (xs.length + n) + 1 := by omega
      rw [this, List.take_succ_cons, ih]

theorem take_add_split : ∀ (l : List Nat) (a b : Nat),
    l.take (a + b) = l.take a ++ (l.drop a).take b
  | _, 0, _ => by simp
  | [], _ + 1, _ => by simp
  | x :: xs, a + 1, b => by
      have h1 : a + 1 + b = (a + b) + 1 := by omega
      rw [h1]
      simp only [List.take_succ_cons, List.drop_succ_cons]
      rw [take_add_split xs a b, List.cons_append]

theorem take_drop_append (l : List Nat) (s t : Nat) :
    (l.drop s).take t ++ l.drop (s + t) = l.drop s := by
  have h1 : l.drop (s + t) = (l.drop s).drop t := (List.drop_drop t s l).symm
  rw [h1, List.take_append_drop]

theorem mod_sub_ne_zero (W s d : Nat) (hW : 0 < W) (hs : s % W = 0)
    (hd1 : 0 < d) (hd2 : d < W) (hds : d ≤ s) : (s - d) % W ≠ 0 := by
  obtain ⟨q, hq⟩ := Nat.dvd_of_mod_eq_zero hs
  obtain ⟨q', rfl⟩ : ∃ q', q = q' + 1 := by
    refine ⟨q - 1, ?_⟩
    have hq0 : q ≠ 0 := by
      rintro rfl
      omega
    omega
  have hmul : W * (q' + 1) = W * q' + W := Nat.mul_succ W q'
  have hcomm : W * q' = q' * W := Nat.mul_comm W q'
  have heq : s - d = (W - d) + q' * W := by omega
  rw [heq, Nat.add_mul_mod_self_right, Nat.mod_eq_of_lt (by omega)]
  omega

theorem readBytes_succ_none (count : Nat) (data : List Nat) (idx wc wSize : Nat)
    (hget : data.get? idx = none) :
    readBytes (count + 1) data idx wc wSize = .error .oob := by
  rw [readBytes, hget]

theorem readBytes_succ_some (count : Nat) (data : List Nat) (idx wc wSize : Nat)
    (b : Nat) (hget : data.get? idx = some b) :
    readBytes (count + 1) data idx wc wSize =
      if (idx + 1) % wSize = 0 then
        if wc = 0 then .error .blocked
        else (readBytes count data (idx + 1) (wc - 1) wSize).map
          (fun r => (b :: r.1, r.2))
      else (readBytes count data (idx + 1) wc wSize).map
        (fun r => (b :: r.1, r.2)) := by
  rw [readBytes, hget]

/-- Reading a final run of `c` bytes up to a `writeSize` boundary: the
single crossing happens at the last byte and releases one write permit. -/
theorem readBytes_run : ∀ (c : Nat) (W : Nat) (data : List Nat) (idx wc : Nat),
    0 < W → c ≤ W → 0 < c →
    (idx + c) % W = 0 → idx + c ≤ data.length → 0 < wc →
    readBytes c data idx wc W = .ok ((data.drop idx).take c, idx + c, wc - 1)
  | 0, _, _, _, _, _, _, hc, _, _, _ => absurd hc (by omega)
  | c + 1, W, data, idx, wc, hW, hcW, _, hmod, hle, hwc => by
      have hidx : idx < data.length := by omega
      have hget : data.get? idx = some data[idx] := by
        rw [List.get?_eq_getElem?, List.getElem?_eq_getElem hidx]
      have hdropc : data.drop idx = data[idx] :: data.drop (idx + 1) :=
        List.drop_eq_getElem_cons hidx
      rw [readBytes_succ_some c data idx wc W data[idx] hget]
      cases c with
      | zero =>
          rw [if_pos (by simpa using hmod), if_neg (by omega)]
          rw [readBytes]
          simp only [Except.map]
          rw [hdropc]
          rfl
      | succ c' =>
          have hne : (idx + 1) % W ≠ 0 := by
            have hkey := mod_sub_ne_zero W (idx + (c' + 1 + 1)) (c' + 1) hW hmod
              (by omega) (by omega) (by omega)
            have harith : idx + (c' + 1 + 1) - (c' + 1) = idx + 1 := by omega
            rwa [harith] at hkey
          rw [if_neg hne]
          rw [readBytes_run (c' + 1) W data (idx + 1) wc hW (by omega) (by omega)
            (by rw [show idx + 1 + (c' + 1) = idx + (c' + 1 + 1) by omega]
                exact hmod)
            (by omega) hwc]
          simp only [Except.map]
          rw [hdropc, List.take_succ_cons,
              show idx + 1 + (c' + 1) = idx + (c' + 1 + 1) by omega]

/-- Splitting a successful read of `a + b` bytes at the `a` boundary. -/
theorem readBytes_split : ∀ (a b : Nat) (data : List Nat) (idx wc wSize : Nat)
    (l1 : List Nat) (i1 w1 : Nat),
    readBytes a data idx wc wSize = .ok (l1, i1, w1) →
    readBytes (a + b) data idx wc wSize =
      (readBytes b data i1 w1 wSize).map (fun s => (l1 ++ s.1, s.2))
  | 0, b, data, idx, wc, wSize, l1, i1, w1, h => by
      rw [readBytes] at h
      simp only [Except.ok.injEq, Prod.mk.injEq] at h
      obtain ⟨rfl, rfl, rfl⟩ := h
      rw [Nat.zero_add]
      cases hr : readBytes b data idx wc wSize with
      | error e => rfl
      | ok s => simp [Except.map]
  | a + 1, b, data, idx, wc, wSize, l1, i1, w1, h => by
      have hab : a + 1 + b = (a + b) + 1 := by omega
      cases hget : data.get? idx with
      | none =>
          rw [readBytes_succ_none a data idx wc wSize hget] at h
          exact Except.noConfusion h
      | some b0 =>
          rw [readBytes_succ_some a data idx wc wSize b0 hget] at h
          rw [hab, readBytes_succ_some (a + b) data idx wc wSize b0 hget]
          by_cases hmod : (idx + 1) % wSize = 0
          · rw [if_pos hmod] at h ⊢
            by_cases hwc : wc = 0
            · rw [if_pos hwc] at h
              exact Except.noConfusion h
            · rw [if_neg hwc] at h ⊢
              cases hrec : readBytes a data (idx + 1) (wc - 1) wSize with
              | error e =>
                  simp only [hrec, Except.map] at h
                  exact Except.noConfusion h
              | ok s =>
                  obtain ⟨l2, i2, w2⟩ := s
                  simp only [hrec, Except.map, Except.ok.injEq, Prod.mk.injEq] at h
                  obtain ⟨rfl, rfl, rfl⟩ := h
                  rw [readBytes_split a b data (idx + 1) (wc - 1) wSize l2 i2 w2 hrec]
                  cases hr : readBytes b data i2 w2 wSize with
                  | error e => rfl
                  | ok s2 => simp [Except.map]
          · rw [if_neg hmod] at h ⊢
            cases hrec : readBytes a data (idx + 1) wc wSize with
            | error e =>
                simp only [hrec, Except.map] at h
                exact Except.noConfusion h
            | ok s =>
                obtain ⟨l2, i2, w2⟩ := s
                simp only [hrec, Except.map, Except.ok.injEq, Prod.mk.injEq] at h
                obtain ⟨rfl, rfl, rfl⟩ := h
                rw [readBytes_split a b data (idx + 1) wc wSize l2 i2 w2 hrec]
                cases hr : readBytes b data i2 w2 wSize with
                | error e => rfl
                | ok s2 => simp [Except.map]

/-- Reading `j` full `writeSize`-chunks from a chunk-aligned cursor. -/
theorem readBytes_blocks : ∀ (j W : Nat) (data : List Nat) (idx wc : Nat),
    0 < W → idx % W = 0 → idx + j * W ≤ data.length → j ≤ wc →
    readBytes (j * W) data idx wc W =
      .ok ((data.drop idx).take (j * W), idx + j * W, wc - j)
  | 0, W, data, idx, wc, _, _, _, _ => by
      rw [Nat.zero_mul, readBytes]
      simp
  | j + 1, W, data, idx, wc, hW, hidx, hle, hwc => by
      have hsucc : (j + 1) * W = W + j * W := by
        rw [Nat.succ_mul]
        omega
      have hone := readBytes_run W W data idx wc hW (Nat.le_refl W) hW
        (by rw [Nat.add_mod_right, hidx]) (by omega) (by omega)
      rw [hsucc, readBytes_split W (j * W) data idx wc W
        ((data.drop idx).take W) (idx + W) (wc - 1) hone]
      rw [readBytes_blocks j W data (idx + W) (wc - 1)
        hW (by rw [Nat.add_mod_right]; exact hidx) (by omega) (by omega)]
      simp only [Except.map, Except.ok.injEq, Prod.mk.injEq]
      have hdd : data.drop (idx + W) = (data.drop idx).drop W :=
        (List.drop_drop W idx data).symm
      refine ⟨?_, by omega, by omega⟩
      rw [hdd, ← take_add_split]

/-!
The full-capacity write sequence: each of the first `m*k - 1` writes moves
`midWriteState` forward one chunk; the final write fills the buffer, wraps
the write cursor onto the read cursor and triggers the
overwrite-on-overflow, producing `fullState`.
-/

theorem flatten_length_all (W : Nat) (ls : List (List Nat))
    (h : ∀ b ∈ ls, b.length = W) : ls.flatten.length = ls.length * W := by
  induction ls with
  | nil => simp
  | cons x xs ih =>
      simp only [List.flatten_cons, List.length_append, List.length_cons]
      rw [h x (by simp), ih (fun b hb => h b (by simp [hb])), Nat.succ_mul]
      omega

theorem drop_replicate (n t : Nat) :
    (List.replicate n (0 : Nat)).drop t = List.replicate (n - t) 0 := by
  induction t generalizing n with
  | zero => simp
  | succ t ih =>
      cases n with
      | zero => simp
      | succ n' =>
          rw [List.replicate_succ, List.drop_succ_cons, ih,
              show n' - t = n' + 1 - (t + 1) by omega]

theorem newRingBuffer_eq_mid (W k m : Nat) (hW : 0 < W) (hk : 0 < k) :
    NewRingBuffer ⟨m * k * W, W, k * W⟩ = midWriteState W k m [] := by
  have h1 : m * k * W / (k * W) = m := by
    rw [Nat.mul_assoc, Nat.mul_div_cancel _ (Nat.mul_pos hk hW)]
  have h2 : m * k * W / W = m * k := Nat.mul_div_cancel _ hW
  unfold NewRingBuffer midWriteState
  dsimp only
  rw [h1, h2]
  simp

theorem finishWrite_no_wrap (rb : RingBuffer)
    (h1 : ¬ rb.writeIdx = rb.data.length) (h2 : ¬ rb.writeIdx = rb.readIdx) :
    rb.finishWrite = .ok rb := by
  unfold RingBuffer.finishWrite
  dsimp only
  rw [if_neg h1, if_neg h2]

theorem finishWrite_wrap_overflow (rb : RingBuffer)
    (h1 : rb.writeIdx = rb.data.length) (h2 : rb.readIdx = 0)
    (h3 : ¬ rb.rSemCount = 0) :
    rb.finishWrite = .ok { rb with
      writeIdx := 0,
      readIdx := rb.readIdx + rb.readSize,
      rSemCount := rb.rSemCount - 1 } := by
  unfold RingBuffer.finishWrite
  dsimp only
  rw [if_pos h1]
  dsimp only
  rw [if_pos h2.symm, if_neg h3, h2]

theorem write_step_mid (W k m : Nat) (hW : 0 < W) (hk : 0 < k)
    (pre : List (List Nat)) (b : List Nat) (hb : b.length = W)
    (hpre : ∀ x ∈ pre, x.length = W)
    (hlt : pre.length + 1 < m * k) :
    (midWriteState W k m pre).Write b = .ok (midWriteState W k m (pre ++ [b])) := by
  have hflat : pre.flatten.length = pre.length * W := flatten_length_all W pre hpre
  have hjW : pre.length * W + W = (pre.length + 1) * W := (Nat.succ_mul _ _).symm
  have hj1 : (pre.length + 1) * W ≤ (m * k) * W :=
    Nat.mul_le_mul_right W (by omega)
  have hj1lt : (pre.length + 1) * W < (m * k) * W :=
    (Nat.mul_lt_mul_right hW).mpr (by omega)
  have hdlen : (pre.flatten ++ List.replicate (m * k * W - pre.length * W) 0).length
      = m * k * W := by
    simp only [List.length_append, List.length_replicate, hflat]
    omega
  have hble : pre.length * W + W ≤
      (pre.flatten ++ List.replicate (m * k * W - pre.length * W) 0).length := by
    rw [hdlen]
    omega
  have hw : ¬ (midWriteState W k m pre).wSemCap ≤ (midWriteState W k m pre).wSemCount := by
    simp only [midWriteState]
    omega
  have hwd : writeData (midWriteState W k m pre) b =
      (pre.flatten ++ b) ++ List.replicate (m * k * W - (pre.length + 1) * W) 0 := by
    unfold writeData midWriteState
    dsimp only
    rw [List.take_of_length_le (by omega : b.length ≤ W),
        show W - b.length = 0 by omega, List.replicate_zero, List.append_nil,
        List.take_left' hflat,
        show pre.length * W + W = pre.flatten.length + W by omega,
        drop_append_left, drop_replicate,
        show m * k * W - pre.length * W - W = m * k * W - (pre.length + 1) * W by omega,
        List.append_assoc]
  have hwdlen : (writeData (midWriteState W k m pre) b).length = m * k * W := by
    rw [hwd]
    simp only [List.length_append, List.length_replicate, hflat, List.length_cons, hb]
    omega
  rw [Write_ok (midWriteState W k m pre) b hble hw]
  rw [hwd]
  dsimp only [midWriteState]
  rw [hjW, Nat.mul_mod_mul_right]
  have hDlen : (pre.flatten ++ b ++
      List.replicate (m * k * W - (pre.length + 1) * W) 0).length = m * k * W := by
    simp only [List.length_append, List.length_replicate, hflat, hb]
    omega
  have hjpos : 0 < (pre.length + 1) * W := Nat.mul_pos (by omega) hW
  by_cases hdv : (pre.length + 1) % k = 0
  · rw [if_pos (by rw [hdv, Nat.zero_mul])]
    rw [if_neg (by
      have hx := (Nat.div_lt_iff_lt_mul hk).mpr (show pre.length < m * k by omega)
      omega)]
    rw [finishWrite_no_wrap _ (by dsimp only; rw [hDlen]; omega)
      (by dsimp only; omega)]
    have hsd : (pre.length + 1) / k = pre.length / k + 1 :=
      Nat.succ_div_of_dvd (Nat.dvd_of_mod_eq_zero hdv)
    simp only [midWriteState, List.flatten_append, List.flatten_cons,
      List.flatten_nil, List.append_nil, List.length_append, List.length_cons,
      List.length_nil, Nat.zero_add, hsd, List.append_assoc]
  · rw [if_neg (by
      intro hcon
      rcases Nat.mul_eq_zero.mp hcon with h1 | h2
      · exact hdv h1
      · omega)]
    rw [finishWrite_no_wrap _ (by dsimp only; rw [hDlen]; omega)
      (by dsimp only; omega)]
    have hsd : (pre.length + 1) / k = pre.length / k :=
      Nat.succ_div_of_not_dvd (fun hcon => hdv (Nat.mod_eq_zero_of_dvd hcon))
    simp only [midWriteState, List.flatten_append, List.flatten_cons,
      List.flatten_nil, List.append_nil, List.length_append, List.length_cons,
      List.length_nil, Nat.zero_add, hsd, List.append_assoc]

theorem write_step_last (W k m : Nat) (hW : 0 < W) (hk : 0 < k) (hm : 0 < m)
    (pre : List (List Nat)) (b : List Nat) (hb : b.length = W)
    (hpre : ∀ x ∈ pre, x.length = W)
    (hlen : pre.length + 1 = m * k) :
    (midWriteState W k m pre).Write b =
      .ok (fullState W k m ((pre ++ [b]).flatten)) := by
  have hflat : pre.flatten.length = pre.length * W := flatten_length_all W pre hpre
  have hjW : pre.length * W + W = (pre.length + 1) * W := (Nat.succ_mul _ _).symm
  have hj1 : (pre.length + 1) * W = m * k * W := by rw [hlen]
  have hdlen : (pre.flatten ++ List.replicate (m * k * W - pre.length * W) 0).length
      = m * k * W := by
    simp only [List.length_append, List.length_replicate, hflat]
    have h1 : pre.length * W ≤ m * k * W := Nat.mul_le_mul_right W (by omega)
    omega
  have hble : pre.length * W + W ≤
      (pre.flatten ++ List.replicate (m * k * W - pre.length * W) 0).length := by
    rw [hdlen]
    omega
  have hw : ¬ (midWriteState W k m pre).wSemCap ≤ (midWriteState W k m pre).wSemCount := by
    simp only [midWriteState]
    omega
  have hwd : writeData (midWriteState W k m pre) b =
      (pre.flatten ++ b) ++ List.replicate (m * k * W - (pre.length + 1) * W) 0 := by
    unfold writeData midWriteState
    dsimp only
    rw [List.take_of_length_le (by omega : b.length ≤ W),
        show W - b.length = 0 by omega, List.replicate_zero, List.append_nil,
        List.take_left' hflat,
        show pre.length * W + W = pre.flatten.length + W by omega,
        drop_append_left, drop_replicate,
        show m * k * W - pre.length * W - W = m * k * W - (pre.length + 1) * W by omega,
        List.append_assoc]
  have hDlen : (pre.flatten ++ b ++
      List.replicate (m * k * W - (pre.length + 1) * W) 0).length = m * k * W := by
    simp only [List.length_append, List.length_replicate, hflat, hb]
    omega
  have hdiv : pre.length / k = m - 1 := by
    obtain ⟨m', rfl⟩ : ∃ m', m = m' + 1 := ⟨m - 1, by omega⟩
    have hkm : (m' + 1) * k = m' * k + k := Nat.succ_mul m' k
    have hc : k * m' = m' * k := Nat.mul_comm k m'
    have hj : pre.length = k - 1 + k * m' := by omega
    rw [hj, Nat.add_mul_div_left _ _ hk, Nat.div_eq_of_lt (by omega)]
    omega
  rw [Write_ok (midWriteState W k m pre) b hble hw]
  rw [hwd]
  dsimp only [midWriteState]
  rw [hjW, Nat.mul_mod_mul_right]
  rw [if_pos (by rw [hlen, Nat.mul_mod_left, Nat.zero_mul])]
  rw [if_neg (by
    have hx := (Nat.div_lt_iff_lt_mul hk).mpr (show pre.length < m * k by omega)
    omega)]
  rw [finishWrite_wrap_overflow _
    (by dsimp only; rw [hDlen]; exact hj1) rfl
    (by dsimp only; omega)]
  unfold fullState
  simp only [List.flatten_append, List.flatten_cons, List.flatten_nil,
    List.append_nil, hj1, Nat.sub_self, List.replicate_zero, Nat.zero_add,
    Nat.add_sub_cancel, hdiv, hlen]

theorem writeAll_phase (W k m : Nat) (hW : 0 < W) (hk : 0 < k) (hm : 0 < m) :
    ∀ (bs pre : List (List Nat)),
    (∀ b ∈ bs, b.length = W) → (∀ x ∈ pre, x.length = W) →
    pre.length + bs.length = m * k → 0 < bs.length →
    writeAll (midWriteState W k m pre) bs =
      .ok (fullState W k m ((pre ++ bs).flatten))
  | [], _, _, _, _, hpos => absurd hpos (by simp)
  | b :: bs', pre, hbs, hpre, hlen, _ => by
      cases bs' with
      | nil =>
          rw [writeAll]
          rw [write_step_last W k m hW hk hm pre b (hbs b (by simp))
            hpre (by simpa using hlen)]
          simp only [Except.bind]
          rw [writeAll]
      | cons b2 bs'' =>
          rw [writeAll]
          rw [write_step_mid W k m hW hk pre b (hbs b (by simp)) hpre
            (by simp only [List.length_cons] at hlen; omega)]
          simp only [Except.bind]
          rw [writeAll_phase W k m hW hk hm (b2 :: bs'') (pre ++ [b])
            (fun x hx => hbs x (by simp [hx]))
            (fun x hx => by
              rcases List.mem_append.mp hx with h | h
              · exact hpre x h
              · simp only [List.mem_singleton] at h
                subst h
                exact hbs x (by simp))
            (by simp only [List.length_append, List.length_cons,
                  List.length_nil] at hlen ⊢
                omega)
            (by simp)]
          rw [List.append_assoc, List.singleton_append]


/-!
The drain sequence: each of the `m - 1` available reads delivers the next
`k*W`-byte slice of the store and moves `readState` forward; the final read
reports no data available.
-/

theorem read_step (W k m i : Nat) (hW : 0 < W) (hk : 0 < k)
    (flat : List Nat) (hlen : flat.length = m * k * W)
    (hi : i + 2 ≤ m) :
    (readState W k m i flat).ReadNoBlock =
      .ok ((flat.drop ((1 + i) * (k * W))).take (k * W), true,
           readState W k m (i + 1) flat) := by
  have hkW : 0 < k * W := Nat.mul_pos hk hW
  have hassoc : m * (k * W) = m * k * W := (Nat.mul_assoc m k W).symm
  have hmod1 : (1 + i) * (k * W) < m * (k * W) :=
    (Nat.mul_lt_mul_right hkW).mpr (by omega)
  have hidxval : ((1 + i) * (k * W)) % (m * (k * W)) = (1 + i) * (k * W) :=
    Nat.mod_eq_of_lt hmod1
  have hsucc2 : (1 + i) * (k * W) + k * W = (2 + i) * (k * W) := by ring
  have hblocks := readBytes_blocks k W flat ((1 + i) * (k * W)) ((m - i) * k)
    hW
    (by rw [show (1 + i) * (k * W) = ((1 + i) * k) * W from by ring,
          Nat.mul_mod_left])
    (by
      have h3 : (2 + i) * (k * W) ≤ m * (k * W) :=
        Nat.mul_le_mul_right _ (by omega)
      omega)
    (Nat.le_mul_of_pos_left k (by omega : 0 < m - i))
  have hwsub : (m - i) * k - k = (m - (i + 1)) * k := by
    rw [show m - (i + 1) = (m - i) - 1 by omega, Nat.sub_one_mul]
  unfold RingBuffer.ReadNoBlock
  dsimp only [readState]
  rw [hidxval]
  rw [if_neg (by omega : ¬ m - 1 - i = 0)]
  rw [hblocks]
  dsimp only
  rw [hsucc2]
  by_cases h2m : 2 + i = m
  · rw [if_pos (by rw [h2m, hassoc, hlen])]
    rw [show ((1 + (i + 1)) * (k * W)) % (m * (k * W)) = 0 from by
      rw [show 1 + (i + 1) = m by omega, Nat.mod_self]]
    rw [← hwsub, show m - 1 - (i + 1) = m - 1 - i - 1 by omega]
  · rw [if_neg (by
      rw [hlen, ← hassoc]
      have h4 : (2 + i) * (k * W) < m * (k * W) :=
        (Nat.mul_lt_mul_right hkW).mpr (by omega)
      omega)]
    rw [show ((1 + (i + 1)) * (k * W)) % (m * (k * W)) = (2 + i) * (k * W) from by
      rw [show 1 + (i + 1) = 2 + i by omega]
      exact Nat.mod_eq_of_lt ((Nat.mul_lt_mul_right hkW).mpr (by omega))]
    rw [← hwsub, show m - 1 - (i + 1) = m - 1 - i - 1 by omega]

theorem drain_reads (W k m : Nat) (hW : 0 < W) (hk : 0 < k) (hm : 0 < m)
    (flat : List Nat) (hlen : flat.length = m * k * W) :
    ∀ (r i : Nat), i + r = m - 1 →
    ∃ chunks rb2,
      drain (readState W k m i flat) (r + 1) = .ok (chunks, true, rb2) ∧
      chunks.flatten = flat.drop ((1 + i) * (k * W)) ∧ chunks.length = r ∧
      (∀ c ∈ chunks, c.length = k * W)
  | 0, i, hir => by
      refine ⟨[], readState W k m i flat, ?_, ?_, rfl, by simp⟩
      · rw [drain]
        unfold RingBuffer.ReadNoBlock
        dsimp only [readState]
        rw [if_pos (by omega : m - 1 - i = 0)]
      · rw [List.flatten_nil, List.drop_eq_nil_of_le]
        rw [hlen, show 1 + i = m by omega, ← Nat.mul_assoc]
  | r + 1, i, hir => by
      have hi : i + 2 ≤ m := by omega
      obtain ⟨chunks, rb2, h1, h2, h3, h4⟩ :=
        drain_reads W k m hW hk hm flat hlen r (i + 1) (by omega)
      refine ⟨(flat.drop ((1 + i) * (k * W))).take (k * W) :: chunks, rb2, ?_, ?_, ?_, ?_⟩
      · rw [drain, read_step W k m i hW hk flat hlen hi]
        dsimp only
        rw [h1]
        rfl
      · rw [List.flatten_cons, h2,
            show (1 + (i + 1)) * (k * W) = (1 + i) * (k * W) + k * W from by ring,
            take_drop_append]
      · simp [h3]
      · intro c hc
        rcases List.mem_cons.mp hc with hc | hc
        · subst hc
          rw [List.length_take, List.length_drop]
          have hlen2 : flat.length = m * (k * W) := by rw [hlen, Nat.mul_assoc]
          have h5 : (1 + i) * (k * W) + k * W ≤ m * (k * W) := by
            rw [show (1 + i) * (k * W) + k * W = (2 + i) * (k * W) from by ring]
            exact Nat.mul_le_mul_right _ (by omega)
          rw [hlen2]
          omega
        · exact h4 c hc

theorem drain_full (W k m : Nat) (hW : 0 < W) (hk : 0 < k) (hm : 0 < m)
    (flat : List Nat) (hlen : flat.length = m * k * W) :
    ∃ chunks rb2, drain (fullState W k m flat) m = .ok (chunks, true, rb2) ∧
      chunks.flatten = flat.drop (k * W) ∧ chunks.length = m - 1 ∧
      (∀ c ∈ chunks, c.length = k * W) := by
  by_cases hm1 : m = 1
  · subst hm1
    refine ⟨[], fullState W k 1 flat, ?_, ?_, rfl, by simp⟩
    · rw [drain]
      unfold RingBuffer.ReadNoBlock
      dsimp only [fullState]
      rw [if_pos rfl]
    · rw [List.flatten_nil, List.drop_eq_nil_of_le]
      rw [hlen, Nat.one_mul]
  · have hm2 : 2 ≤ m := by omega
    have heq : readState W k m 0 flat = fullState W k m flat := by
      unfold readState fullState
      have hkW : 0 < k * W := Nat.mul_pos hk hW
      rw [show (1 + 0) * (k * W) = k * W from by ring]
      rw [Nat.mod_eq_of_lt (by
        have := (Nat.mul_lt_mul_right hkW).mpr (show 1 < m by omega)
        omega)]
      simp
    obtain ⟨chunks, rb2, h1, h2, h3, h4⟩ :=
      drain_reads W k m hW hk hm flat hlen (m - 1) 0 (by omega)
    rw [heq, show m - 1 + 1 = m by omega] at h1
    refine ⟨chunks, rb2, h1, ?_, h3, h4⟩
    rw [h2, show (1 + 0) * (k * W) = k * W from by ring]

/-!
Claim theorems, part 3: the full-capacity write/drain property (C1).
-/

/-- C1 counterexample: for capacity 16, write chunk 2, read chunk 4,
performing exactly 16/2 = 8 writes (total exactly 16 bytes, never more than
the capacity) and then draining with repeated non-blocking reads does NOT
return all written bytes: the capacity-filling final write wraps the write
cursor onto the read cursor and the overwrite-on-overflow skips the oldest
read chunk, so the drain delivers only bytes 5..16. -/
theorem c1_counterexample_first_chunk_skipped :
    (writeAll (NewRingBuffer ⟨16, 2, 4⟩)
        [[1,2],[3,4],[5,6],[7,8],[9,10],[11,12],[13,14],[15,16]]).bind
      (fun rb => (drain rb 8).map (fun r => (r.1.flatten, r.2.1))) =
      .ok ([5,6,7,8,9,10,11,12,13,14,15,16], true) ∧
    ([5,6,7,8,9,10,11,12,13,14,15,16] : List Nat) ≠
      [1,2,3,4,5,6,7,8,9,10,11,12,13,14,15,16] := by
  decide

/-- C1 (amended): for every ring buffer with write chunk `W`, read chunk
`R = k*W` and capacity `C = m*R` (the spec's divisibility invariant),
performing exactly `C/W = m*k` writes of `W`-byte chunks (total exactly `C`
bytes, never exceeding `C`) and then draining with repeated non-blocking
reads returns the written bytes from offset `R` onward — exactly `m - 1`
read chunks, in the original write order with no gaps; the oldest unread
chunk at the single overwrite event (the first `R` written bytes) is
skipped and never delivered, and the drain ends with a read reporting no
data available. -/
theorem c1_full_capacity_writes_drain (W k m : Nat)
    (hW : 0 < W) (hk : 0 < k) (hm : 0 < m)
    (bs : List (List Nat)) (hn : bs.length = m * k) (hbs : ∀ b ∈ bs, b.length = W) :
    ∃ rb chunks rb2,
      writeAll (NewRingBuffer ⟨m * k * W, W, k * W⟩) bs = .ok rb ∧
      drain rb m = .ok (chunks, true, rb2) ∧
      chunks.flatten = bs.flatten.drop (k * W) ∧
      chunks.length = m - 1 ∧
      (∀ c ∈ chunks, c.length = k * W) := by
  have hwa : writeAll (NewRingBuffer ⟨m * k * W, W, k * W⟩) bs =
      .ok (fullState W k m bs.flatten) := by
    rw [newRingBuffer_eq_mid W k m hW hk]
    have hph := writeAll_phase W k m hW hk hm bs [] hbs (by simp)
      (by simpa using hn)
      (by rw [hn]; exact Nat.mul_pos hm hk)
    simpa using hph
  have hfl : bs.flatten.length = m * k * W := by
    rw [flatten_length_all W bs hbs, hn]
  obtain ⟨chunks, rb2, h1, h2, h3, h4⟩ := drain_full W k m hW hk hm bs.flatten hfl
  exact ⟨fullState W k m bs.flatten, chunks, rb2, hwa, h1, h2, h3, h4⟩

/-- C1 witness: the 8-byte buffer (W=2, k=2, m=2): four 2-byte writes fill
it; draining returns exactly one 4-byte chunk, the written bytes from
offset 4. -/
theorem c1_full_capacity_writes_drain_witness :
    ∃ rb chunks rb2,
      writeAll (NewRingBuffer ⟨2 * 2 * 2, 2, 2 * 2⟩)
          [[1,2],[3,4],[5,6],[7,8]] = .ok rb ∧
      drain rb 2 = .ok (chunks, true, rb2) ∧
      chunks.flatten =
        ([[1,2],[3,4],[5,6],[7,8]] : List (List Nat)).flatten.drop (2 * 2) ∧
      chunks.length = 2 - 1 ∧
      (∀ c ∈ chunks, c.length = 2 * 2) :=
  c1_full_capacity_writes_drain 2 2 2 (by decide) (by decide) (by decide)
    [[1,2],[3,4],[5,6],[7,8]] (by decide) (by decide)
